import Mathlib

/-!
Verification of the privacy-pool accounting core: a shallow embedding of
`src/evm/lib/MerkleTreeLib.sol`, `src/evm/lib/SHA256Lib.sol`, the
`PrivacyPool` contract (`deposit`/`withdraw`), and the TypeScript
256-bit/8-limb codec, together with theorems about the withdrawal state
machine, the Merkle accumulator, the root-history ring buffer and the codec.

The hash `SHA256Lib.sha256Hash` is an external compression function; every
definition is parametrised by it as `H2 : Nat → Nat → Nat`.  Solidity
mappings are embedded as functions `Nat → Bool` / `Nat → Nat` with pointwise
updates; `uint256[100] rootHistory` is the function `rootHistory : Nat → Nat`
(zero-initialised), and the constant `HISTORY_SIZE` is generalised to the
field `historySize`.  The pair (`leafCount`, `leaves` mapping) of the source,
which the code keeps in sync by writing `leaves[leafCount]` and then
incrementing, is embedded as a single list whose length is the leaf count.
Reverting `require` failures are embedded as `Except.error`; a reverted call
leaves the caller's state unchanged, which `applyInsert` / `applyWithdraw`
make explicit.
-/

namespace PrivacyPool

/-- Tree state of `MerkleTreeLib.MerkleTree`: `depth`, `zeroValue`, the
leaves (list of length `leafCount`, index order), the `leafExists` mapping,
the root-history ring buffer with its write cursor, and the
`isValidHistoricalRoot` mapping. -/
structure MerkleTree where
  depth : Nat
  zeroValue : Nat
  leaves : List Nat
  leafExists : Nat → Bool
  historySize : Nat
  rootHistory : Nat → Nat
  currentHistoryIndex : Nat
  isValidHistoricalRoot : Nat → Bool

/-- `MerkleTreeLib.HISTORY_SIZE`. -/
def HISTORY_SIZE : Nat := 100

/-- `MerkleTreeLib.calculateEmptyTreeRoot`: starting from `zeroValue`,
apply `currentHash := H2(currentHash, currentHash)` exactly `depth` times. -/
def calculateEmptyTreeRoot (H2 : Nat → Nat → Nat) (zeroValue depth : Nat) : Nat :=
  (fun x => H2 x x)^[depth] zeroValue

/-- `MerkleTreeLib.initialize` (named `initTree` here): empty tree whose
root history holds the empty-tree root in slot 0, cursor at 0, with that
root marked valid.  `historySize` generalises the constant `HISTORY_SIZE`. -/
def initTree (H2 : Nat → Nat → Nat) (depth zeroValue historySize : Nat) : MerkleTree :=
  let initialRoot := calculateEmptyTreeRoot H2 zeroValue depth
  { depth := depth
    zeroValue := zeroValue
    leaves := []
    leafExists := fun _ => false
    historySize := historySize
    rootHistory := fun s => if s = 0 then initialRoot else 0
    currentHistoryIndex := 0
    isValidHistoricalRoot := fun r => if r = initialRoot then true else false }

/-- One level of the bottom-up loop in `calculateCurrentRoot`: hash
adjacent pairs left to right (the source's in-place writes at index `i`
never clobber the reads at `2i`, `2i+1`). -/
def hashPairs (H2 : Nat → Nat → Nat) : List Nat → List Nat
  | a :: b :: rest => H2 a b :: hashPairs H2 rest
  | _ => []

/-- `MerkleTreeLib.calculateCurrentRoot`: pad the leaves with `zeroValue`
out to `2 ^ depth`, then hash pairwise `depth` times; empty tree short
circuits to the empty-tree root. -/
def calculateCurrentRoot (H2 : Nat → Nat → Nat) (t : MerkleTree) : Nat :=
  if t.leaves.length = 0 then calculateEmptyTreeRoot H2 t.zeroValue t.depth
  else
    ((hashPairs H2)^[t.depth]
      ((List.range (2 ^ t.depth)).map fun i => t.leaves.getD i t.zeroValue)).getD 0 0

/-- `MerkleTreeLib.getRoot`. -/
def getRoot (H2 : Nat → Nat → Nat) (t : MerkleTree) : Nat :=
  if t.leaves.length = 0 then calculateEmptyTreeRoot H2 t.zeroValue t.depth
  else calculateCurrentRoot H2 t

/-- `MerkleTreeLib.updateRootHistory`: advance the cursor mod capacity,
evict the (nonzero) occupant of that slot from the valid mapping, store
the new root there and mark it valid. -/
def updateRootHistory (t : MerkleTree) (newRoot : Nat) : MerkleTree :=
  let newIndex := (t.currentHistoryIndex + 1) % t.historySize
  let oldRoot := t.rootHistory newIndex
  let validAfterEvict : Nat → Bool :=
    if oldRoot ≠ 0 then fun r => if r = oldRoot then false else t.isValidHistoricalRoot r
    else t.isValidHistoricalRoot
  { t with
    currentHistoryIndex := newIndex
    rootHistory := fun s => if s = newIndex then newRoot else t.rootHistory s
    isValidHistoricalRoot := fun r => if r = newRoot then true else validAfterEvict r }

/-- Errors of the tree `require`s in `MerkleTreeLib.insert`. -/
inductive TreeError where
  | TreeFull
  | DuplicateLeaf
deriving DecidableEq

/-- The three storage writes of `MerkleTreeLib.insert` once its guards
pass: `leaves[leafCount] := leaf; leafExists[leaf] := true; leafCount++`. -/
def addLeaf (t : MerkleTree) (leaf : Nat) : MerkleTree :=
  { t with
    leaves := t.leaves ++ [leaf]
    leafExists := fun l => if l = leaf then true else t.leafExists l }

/-- `MerkleTreeLib.insert`: requires `leafCount < 2 ^ depth` (else
`TreeFull`) and `!leafExists[leaf]` (else `DuplicateLeaf`), then appends
the leaf and records the recomputed root in the history. -/
def insert (H2 : Nat → Nat → Nat) (t : MerkleTree) (leaf : Nat) : Except TreeError MerkleTree :=
  if 2 ^ t.depth ≤ t.leaves.length then .error .TreeFull
  else if t.leafExists leaf then .error .DuplicateLeaf
  else
    let t1 := addLeaf t leaf
    .ok (updateRootHistory t1 (calculateCurrentRoot H2 t1))

/-- `MerkleTreeLib.hasLeaf`. -/
def hasLeaf (t : MerkleTree) (leaf : Nat) : Bool := t.leafExists leaf

/-- Revert semantics of a failed `insert`: the caller's tree is unchanged. -/
def applyInsert (H2 : Nat → Nat → Nat) (t : MerkleTree) (leaf : Nat) : MerkleTree :=
  match insert H2 t leaf with
  | .ok t' => t'
  | .error _ => t

/-- The authentication-path fold of `MerkleTreeLib.verifyProof`:
`pathIndices[i] = 0` means the current node is a left child
(`H2(current, sibling)`), anything else means right child
(`H2(sibling, current)`). -/
def pathHash (H2 : Nat → Nat → Nat) : Nat → List Nat → List Nat → Nat
  | cur, p :: ps, i :: is => pathHash H2 (if i = 0 then H2 cur p else H2 p cur) ps is
  | cur, _, _ => cur

/-- `MerkleTreeLib.verifyProof`: reverts (`none`) when the sibling and
path-index arrays have different lengths, otherwise compares the
recomputed path hash with the given root. -/
def verifyProof (H2 : Nat → Nat → Nat) (leaf : Nat) (proof pathIndices : List Nat)
    (root : Nat) : Option Bool :=
  if proof.length ≠ pathIndices.length then none
  else some (pathHash H2 leaf proof pathIndices == root)

/-! ### The 256-bit / 8×32-bit-limb codec (TypeScript `u256ToArrayBE` /
`u256FromArrayBE` and the matching `SHA256Lib` functions).  The source's
`& 0xffffffff` is `% 2 ^ 32` and `>> 32` is `>>> 32`. -/

/-- The encoding loop of `u256ToArrayBE`: `n` iterations of
`array[i] := remaining & 0xffffffff; remaining >>= 32`, filling the array
from its last slot backwards. -/
def limbsBE : Nat → Nat → List Nat
  | 0, _ => []
  | n + 1, remaining => limbsBE n (remaining >>> 32) ++ [remaining % 2 ^ 32]

/-- TypeScript `u256ToArrayBE`: big-endian 8-limb decomposition.  Note the
source performs no range check on its input. -/
def u256ToArrayBE (x : Nat) : List Nat := limbsBE 8 x

/-- The decoding fold shared by the TypeScript and Solidity
`u256FromArrayBE`: `result := (result << 32) | array[i]` left to right. -/
def u256FromLimbsBE (a : List Nat) : Nat :=
  a.foldl (fun acc v => (acc <<< 32) ||| v) 0

/-- TypeScript `u256FromArrayBE`: throws unless the array has length 8,
then runs the decoding fold. -/
def u256FromArrayBE (a : List Nat) : Except String Nat :=
  if a.length ≠ 8 then .error "Array must be of length 8"
  else .ok (u256FromLimbsBE a)

/-! ### The `PrivacyPool` contract (`deposit` / `withdraw`). -/

/-- `PrivacyPool.DENOMINATION` = 1 ether. -/
def DENOMINATION : Nat := 1000000000000000000

/-- The `require` failures of `PrivacyPool.deposit` and
`PrivacyPool.withdraw`, in the order the messages appear in the source,
plus the lifted tree errors raised by the nested `MerkleTreeLib.insert`. -/
inductive PoolError where
  | WrongDenomination
  | InvalidCommitment
  | CommitmentAlreadyExists
  | InvalidRecipient
  | InvalidProof
  | PublicInputsTooShort
  | ZeroWithdrawAmount
  | AmountExceedsDenomination
  | InsufficientPoolBalance
  | NullifierReused
  | InvalidMerkleRoot
  | DuplicateNewCommitment
  | TreeIsFull
deriving DecidableEq

/-- A `MerkleTreeLib.insert` revert surfacing through the pool contract:
a duplicate leaf inside `withdraw` is its `DuplicateNewCommitment` case. -/
def liftTreeError : TreeError → PoolError
  | .TreeFull => .TreeIsFull
  | .DuplicateLeaf => .DuplicateNewCommitment

/-- `PrivacyPool` contract state: the tree, the `nullifierHashExists`
mapping, the contract's ETH balance, and the two statistics counters. -/
structure PoolState where
  merkleTree : MerkleTree
  nullifierHashExists : Nat → Bool
  balance : Nat
  totalDeposits : Nat
  totalWithdrawals : Nat

/-- `PrivacyPool.deposit`: requires `msg.value == DENOMINATION`,
`commitment != 0` and that the commitment is not already a leaf, then
inserts it and credits the pool (a payable call adds `msg.value` to the
contract balance). -/
def deposit (H2 : Nat → Nat → Nat) (st : PoolState) (commitment msgValue : Nat) :
    Except PoolError PoolState :=
  if msgValue ≠ DENOMINATION then .error .WrongDenomination
  else if commitment = 0 then .error .InvalidCommitment
  else if hasLeaf st.merkleTree commitment then .error .CommitmentAlreadyExists
  else
    match insert H2 st.merkleTree commitment with
    | .error e => .error (liftTreeError e)
    | .ok t' =>
      .ok { st with
            merkleTree := t'
            balance := st.balance + msgValue
            totalDeposits := st.totalDeposits + msgValue }

/-- `publicInputs[0]` of the withdrawal proof. -/
def extractWithdrawAmount (publicInputs : List Nat) : Nat := publicInputs.getD 0 0

/-- `merkleRoot` reconstructed in `withdraw` from `publicInputs[1..8]`:
each word is cast to `uint32` and the limbs are recomposed big-endian. -/
def extractMerkleRoot (publicInputs : List Nat) : Nat :=
  u256FromLimbsBE ((List.range 8).map fun i => publicInputs.getD (1 + i) 0 % 2 ^ 32)

/-- `nullifierHash` reconstructed in `withdraw` from `publicInputs[9..16]`. -/
def extractNullifierHash (publicInputs : List Nat) : Nat :=
  u256FromLimbsBE ((List.range 8).map fun i => publicInputs.getD (9 + i) 0 % 2 ^ 32)

/-- `newCommitment` reconstructed in `withdraw` from `publicInputs[17..24]`. -/
def extractNewCommitment (publicInputs : List Nat) : Nat :=
  u256FromLimbsBE ((List.range 8).map fun i => publicInputs.getD (17 + i) 0 % 2 ^ 32)

/-- The storage write `nullifierHashExists[nullifierHash] = true` of
`withdraw` (performed after the root check). -/
def markNullifier (st : PoolState) (nh : Nat) : PoolState :=
  { st with
    nullifierHashExists := fun h => if h = nh then true else st.nullifierHashExists h }

/-- `PrivacyPool.withdraw`.  The external `ProofVerifier` is modelled by
its result `(proofValid, publicInputs)`; the recipient address is a `Nat`
(`0` = the zero address).  The checks appear in source order: recipient,
proof, the 25-word public-input access, `withdrawAmount > 0`,
`withdrawAmount <= DENOMINATION`, pool balance, nullifier unused, claimed
root equal to the *current* tree root; then the nullifier is marked used,
a nonzero `newCommitment` is inserted (duplicate → revert), totals are
updated and the amount is sent to the recipient. -/
def withdraw (H2 : Nat → Nat → Nat) (st : PoolState) (proofValid : Bool)
    (publicInputs : List Nat) (recipient : Nat) : Except PoolError (PoolState × Nat) :=
  if recipient = 0 then .error .InvalidRecipient
  else if proofValid = false then .error .InvalidProof
  else if publicInputs.length < 25 then .error .PublicInputsTooShort
  else if extractWithdrawAmount publicInputs = 0 then .error .ZeroWithdrawAmount
  else if DENOMINATION < extractWithdrawAmount publicInputs then
    .error .AmountExceedsDenomination
  else if st.balance < extractWithdrawAmount publicInputs then
    .error .InsufficientPoolBalance
  else if st.nullifierHashExists (extractNullifierHash publicInputs) then
    .error .NullifierReused
  else if extractMerkleRoot publicInputs ≠ getRoot H2 st.merkleTree then
    .error .InvalidMerkleRoot
  else if extractNewCommitment publicInputs ≠ 0 then
    if hasLeaf (markNullifier st (extractNullifierHash publicInputs)).merkleTree
        (extractNewCommitment publicInputs) then .error .DuplicateNewCommitment
    else
      match insert H2 (markNullifier st (extractNullifierHash publicInputs)).merkleTree
          (extractNewCommitment publicInputs) with
      | .error e => .error (liftTreeError e)
      | .ok t' =>
        .ok ({ markNullifier st (extractNullifierHash publicInputs) with
               merkleTree := t'
               totalWithdrawals :=
                 (markNullifier st (extractNullifierHash publicInputs)).totalWithdrawals
                   + extractWithdrawAmount publicInputs
               balance :=
                 (markNullifier st (extractNullifierHash publicInputs)).balance
                   - extractWithdrawAmount publicInputs },
             extractWithdrawAmount publicInputs)
  else
    .ok ({ markNullifier st (extractNullifierHash publicInputs) with
           totalWithdrawals :=
             (markNullifier st (extractNullifierHash publicInputs)).totalWithdrawals
               + extractWithdrawAmount publicInputs
           balance :=
             (markNullifier st (extractNullifierHash publicInputs)).balance
               - extractWithdrawAmount publicInputs },
         extractWithdrawAmount publicInputs)

/-- Revert semantics of a failed `withdraw`: the contract state the caller
observes afterwards is the pre-call state. -/
def applyWithdraw (H2 : Nat → Nat → Nat) (st : PoolState) (proofValid : Bool)
    (publicInputs : List Nat) (recipient : Nat) : PoolState :=
  match withdraw H2 st proofValid publicInputs recipient with
  | .ok (st', _) => st'
  | .error _ => st

/-- The error of a withdrawal outcome, `none` on success. -/
def resultError : Except PoolError (PoolState × Nat) → Option PoolError
  | .ok _ => none
  | .error e => some e

/-- The amount paid by a withdrawal outcome, `none` on revert. -/
def resultAmount : Except PoolError (PoolState × Nat) → Option Nat
  | .ok (_, amt) => some amt
  | .error _ => none

/-! ### Helper lemmas -/

@[simp] lemma addLeaf_depth (t : MerkleTree) (l : Nat) : (addLeaf t l).depth = t.depth := rfl

@[simp] lemma addLeaf_zeroValue (t : MerkleTree) (l : Nat) :
    (addLeaf t l).zeroValue = t.zeroValue := rfl

@[simp] lemma addLeaf_leaves (t : MerkleTree) (l : Nat) :
    (addLeaf t l).leaves = t.leaves ++ [l] := rfl

@[simp] lemma addLeaf_historySize (t : MerkleTree) (l : Nat) :
    (addLeaf t l).historySize = t.historySize := rfl

@[simp] lemma addLeaf_currentHistoryIndex (t : MerkleTree) (l : Nat) :
    (addLeaf t l).currentHistoryIndex = t.currentHistoryIndex := rfl

@[simp] lemma addLeaf_rootHistory (t : MerkleTree) (l : Nat) :
    (addLeaf t l).rootHistory = t.rootHistory := rfl

@[simp] lemma addLeaf_isValidHistoricalRoot (t : MerkleTree) (l : Nat) :
    (addLeaf t l).isValidHistoricalRoot = t.isValidHistoricalRoot := rfl

@[simp] lemma updateRootHistory_depth (t : MerkleTree) (r : Nat) :
    (updateRootHistory t r).depth = t.depth := rfl

@[simp] lemma updateRootHistory_zeroValue (t : MerkleTree) (r : Nat) :
    (updateRootHistory t r).zeroValue = t.zeroValue := rfl

@[simp] lemma updateRootHistory_leaves (t : MerkleTree) (r : Nat) :
    (updateRootHistory t r).leaves = t.leaves := rfl

@[simp] lemma updateRootHistory_historySize (t : MerkleTree) (r : Nat) :
    (updateRootHistory t r).historySize = t.historySize := rfl

@[simp] lemma updateRootHistory_leafExists (t : MerkleTree) (r : Nat) :
    (updateRootHistory t r).leafExists = t.leafExists := rfl

lemma updateRootHistory_currentHistoryIndex (t : MerkleTree) (r : Nat) :
    (updateRootHistory t r).currentHistoryIndex
      = (t.currentHistoryIndex + 1) % t.historySize := rfl

lemma updateRootHistory_rootHistory (t : MerkleTree) (r s : Nat) :
    (updateRootHistory t r).rootHistory s
      = if s = (t.currentHistoryIndex + 1) % t.historySize then r
        else t.rootHistory s := rfl

lemma updateRootHistory_valid (t : MerkleTree) (r q : Nat) :
    (updateRootHistory t r).isValidHistoricalRoot q
      = if q = r then true
        else if t.rootHistory ((t.currentHistoryIndex + 1) % t.historySize) ≠ 0 then
          (if q = t.rootHistory ((t.currentHistoryIndex + 1) % t.historySize) then false
           else t.isValidHistoricalRoot q)
        else t.isValidHistoricalRoot q := by
  unfold updateRootHistory
  by_cases h : t.rootHistory ((t.currentHistoryIndex + 1) % t.historySize) ≠ 0 <;>
    simp [h]

lemma calculateCurrentRoot_congr (H2 : Nat → Nat → Nat) {t t' : MerkleTree}
    (hd : t.depth = t'.depth) (hz : t.zeroValue = t'.zeroValue)
    (hl : t.leaves = t'.leaves) :
    calculateCurrentRoot H2 t = calculateCurrentRoot H2 t' := by
  unfold calculateCurrentRoot
  rw [hd, hz, hl]

lemma getRoot_congr (H2 : Nat → Nat → Nat) {t t' : MerkleTree}
    (hd : t.depth = t'.depth) (hz : t.zeroValue = t'.zeroValue)
    (hl : t.leaves = t'.leaves) :
    getRoot H2 t = getRoot H2 t' := by
  unfold getRoot
  rw [calculateCurrentRoot_congr H2 hd hz hl, hd, hz, hl]

/-! ### Codec lemmas -/

lemma limbsBE_length (n x : Nat) : (limbsBE n x).length = n := by
  induction n generalizing x with
  | zero => rfl
  | succ n ih => simp [limbsBE, ih]

lemma shiftLeft_lor_small (A b : Nat) (hb : b < 2 ^ 32) :
    (A <<< 32) ||| b = A * 2 ^ 32 + b := by
  rw [Nat.shiftLeft_eq, Nat.mul_comm, ← Nat.mul_add_lt_is_or hb, Nat.mul_comm]

lemma foldl_limbsBE (n : Nat) : ∀ x acc : Nat,
    (limbsBE n x).foldl (fun a v => (a <<< 32) ||| v) acc
      = acc * 2 ^ (32 * n) + x % 2 ^ (32 * n) := by
  induction n with
  | zero => simp [limbsBE, Nat.mod_one]
  | succ n ih =>
    intro x acc
    rw [limbsBE, List.foldl_append, ih]
    simp only [List.foldl_cons, List.foldl_nil]
    rw [shiftLeft_lor_small _ _ (Nat.mod_lt x (by norm_num)),
      Nat.shiftRight_eq_div_pow]
    have hsplit : x % 2 ^ (32 * (n + 1))
        = x % 2 ^ 32 + 2 ^ 32 * (x / 2 ^ 32 % 2 ^ (32 * n)) := by
      rw [show 32 * (n + 1) = 32 + 32 * n by ring, pow_add]
      exact Nat.mod_mul
    rw [hsplit, show 32 * (n + 1) = 32 + 32 * n by ring, pow_add]
    ring

/-! ### Concrete instances used by witnesses and counterexamples.
`H2c` is an injective-on-small-inputs stand-in for the external
compression function (the protocol never depends on the hash's
internals, only on where `H2` is applied). -/

/-- A concrete binary hash for witnesses: the (shifted) Cantor pairing. -/
def H2c : Nat → Nat → Nat := fun a b => (a + b) * (a + b + 1) / 2 + b + 1

/-- A depth-1, capacity-5-history tree. -/
def t0c : MerkleTree := initTree H2c 1 0 5

/-- Fresh pool over `t0c` with zero balance. -/
def st0c : PoolState :=
  { merkleTree := t0c
    nullifierHashExists := fun _ => false
    balance := 0
    totalDeposits := 0
    totalWithdrawals := 0 }

/-- `st0c` after a deposit of commitment 7. -/
def st1c : PoolState := (deposit H2c st0c 7 DENOMINATION).toOption.getD st0c

/-- Public inputs claiming amount 1, merkle root 1, nullifier hash 3, no
new commitment (25 words, roots in big-endian 32-bit limbs). -/
def piC1 : List Nat :=
  [1] ++ [0, 0, 0, 0, 0, 0, 0, 1] ++ [0, 0, 0, 0, 0, 0, 0, 3] ++ [0, 0, 0, 0, 0, 0, 0, 0]

/-! ### C8 -/

/-- C8: the root of a tree with zero leaves is the `depth`-fold iterate of
`x := H2 x x` starting from `zeroValue`, and the root query is a pure
function of `(depth, zeroValue, leaves)` — trees agreeing on those agree
on the root regardless of any other state. -/
theorem C8_empty_root_iterated_and_root_pure (H2 : Nat → Nat → Nat) :
    (∀ t : MerkleTree, t.leaves = [] →
      getRoot H2 t = (fun x => H2 x x)^[t.depth] t.zeroValue)
    ∧ ∀ t t' : MerkleTree, t.depth = t'.depth → t.zeroValue = t'.zeroValue →
        t.leaves = t'.leaves → getRoot H2 t = getRoot H2 t' := by
  constructor
  · intro t h
    simp [getRoot, h, calculateEmptyTreeRoot]
  · intro t t' hd hz hl
    exact getRoot_congr H2 hd hz hl

/-- A depth-1 empty tree sharing `t0c`'s leaves but with scrambled
bookkeeping fields, for the purity witness. -/
def tC8b : MerkleTree :=
  { depth := 1
    zeroValue := 0
    leaves := []
    leafExists := fun _ => false
    historySize := 3
    rootHistory := fun _ => 0
    currentHistoryIndex := 2
    isValidHistoricalRoot := fun _ => false }

/-- Witness for C8 at concrete trees. -/
theorem C8_witness :
    getRoot H2c t0c = (fun x => H2c x x)^[t0c.depth] t0c.zeroValue
    ∧ getRoot H2c t0c = getRoot H2c tC8b :=
  ⟨(C8_empty_root_iterated_and_root_pure H2c).1 t0c rfl,
   (C8_empty_root_iterated_and_root_pure H2c).2 t0c tC8b rfl rfl rfl⟩

/-! ### C9 -/

/-- C9 counterexample: the encoder does not reject the out-of-range value
`2 ^ 256`; it silently truncates it to the encoding of `0`, which decodes
to `0`, not to an error. -/
theorem C9_counterexample :
    u256ToArrayBE (2 ^ 256) = [0, 0, 0, 0, 0, 0, 0, 0]
    ∧ u256FromArrayBE (u256ToArrayBE (2 ^ 256)) = .ok 0 := by
  constructor <;> rfl

/-- C9 amended: decoding the 8-word big-endian encoding of `x` yields
`x % 2 ^ 256` for every `x` — in particular exactly `x` on the supported
range `x < 2 ^ 256` — but an out-of-range value is silently truncated,
never rejected: the composite still returns `.ok`. -/
theorem C9_codec_round_trip (x : Nat) :
    u256FromArrayBE (u256ToArrayBE x) = .ok (x % 2 ^ 256)
    ∧ (x < 2 ^ 256 → u256FromArrayBE (u256ToArrayBE x) = .ok x) := by
  have hlen : (u256ToArrayBE x).length = 8 := limbsBE_length 8 x
  have hmain : u256FromArrayBE (u256ToArrayBE x) = .ok (x % 2 ^ 256) := by
    unfold u256FromArrayBE
    rw [hlen]
    simp only [if_neg (by omega : ¬ (8 : Nat) ≠ 8)]
    unfold u256FromLimbsBE u256ToArrayBE
    rw [foldl_limbsBE 8 x 0]
    norm_num
  exact ⟨hmain, fun hx => by rw [hmain, Nat.mod_eq_of_lt hx]⟩

/-- Witness for C9 at `x = 12345`. -/
theorem C9_witness : u256FromArrayBE (u256ToArrayBE 12345) = .ok 12345 :=
  (C9_codec_round_trip 12345).2 (by norm_num)

/-! ### C10 -/

/-- C10: `deposit` rejects any payment that is not exactly the fixed
denomination, rejects the zero commitment, and hence never admits `0` as a
tree leaf: a successful deposit appends exactly its (nonzero) commitment. -/
theorem C10_deposit_rejects_zero_commitment (H2 : Nat → Nat → Nat)
    (st : PoolState) (c v : Nat) :
    (v ≠ DENOMINATION → deposit H2 st c v = .error .WrongDenomination)
    ∧ (c = 0 → ∃ e, deposit H2 st c v = .error e)
    ∧ ∀ st', deposit H2 st c v = .ok st' →
        c ≠ 0 ∧ v = DENOMINATION
        ∧ hasLeaf st'.merkleTree c = true
        ∧ st'.merkleTree.leaves = st.merkleTree.leaves ++ [c]
        ∧ (0 ∈ st'.merkleTree.leaves ↔ 0 ∈ st.merkleTree.leaves) := by
  refine ⟨fun hv => by simp [deposit, hv], fun hc => ?_, fun st' h => ?_⟩
  · by_cases hv : v = DENOMINATION
    · exact ⟨.InvalidCommitment, by simp [deposit, hv, hc]⟩
    · exact ⟨.WrongDenomination, by simp [deposit, hv]⟩
  · unfold deposit at h
    split at h
    · cases h
    · split at h
      · cases h
      · split at h
        · cases h
        · split at h
          · cases h
          · rename_i heq
            cases h
            unfold insert at heq
            split at heq
            · cases heq
            · split at heq
              · cases heq
              · cases heq
                have hc : c ≠ 0 := by assumption
                refine ⟨hc, by omega, ?_, by simp [addLeaf], ?_⟩
                · simp [hasLeaf, updateRootHistory, addLeaf]
                · simp only [updateRootHistory_leaves, addLeaf_leaves]
                  simp [List.mem_append, hc, Ne.symm hc]

/-- Witness for C10: a 5-wei payment is rejected, and a zero commitment
with the right payment is rejected. -/
theorem C10_witness :
    deposit H2c st0c 7 5 = .error .WrongDenomination
    ∧ ∃ e, deposit H2c st0c 0 DENOMINATION = .error e :=
  ⟨(C10_deposit_rejects_zero_commitment H2c st0c 7 5).1 (by decide),
   (C10_deposit_rejects_zero_commitment H2c st0c 0 DENOMINATION).2.1 rfl⟩

/-! ### C6 -/

/-- C6: `insert` rejects with `TreeFull` when the tree already holds
`2 ^ depth` leaves and with `DuplicateLeaf` when the leaf is already
present (tree unchanged in both failure cases); otherwise it appends the
leaf at index `leafCount`, increments the leaf count by one, and records
the recomputed root as the newest valid historical root. -/
theorem C6_insert_spec (H2 : Nat → Nat → Nat) (t : MerkleTree) (l : Nat) :
    (t.leaves.length = 2 ^ t.depth →
      insert H2 t l = .error .TreeFull ∧ applyInsert H2 t l = t)
    ∧ (t.leaves.length < 2 ^ t.depth → t.leafExists l = true →
      insert H2 t l = .error .DuplicateLeaf ∧ applyInsert H2 t l = t)
    ∧ (t.leaves.length < 2 ^ t.depth → t.leafExists l = false →
      ∃ t', insert H2 t l = .ok t'
        ∧ t'.leaves = t.leaves ++ [l]
        ∧ t'.leaves.getD t.leaves.length 0 = l
        ∧ t'.leaves.length = t.leaves.length + 1
        ∧ t'.isValidHistoricalRoot (calculateCurrentRoot H2 t') = true
        ∧ getRoot H2 t' = calculateCurrentRoot H2 t') := by
  refine ⟨fun hfull => ?_, fun hlt hdup => ?_, fun hlt hnew => ?_⟩
  · have h : 2 ^ t.depth ≤ t.leaves.length := le_of_eq hfull.symm
    exact ⟨by simp [insert, h], by simp [applyInsert, insert, h]⟩
  · have h : ¬ 2 ^ t.depth ≤ t.leaves.length := by omega
    exact ⟨by simp [insert, h, hdup], by simp [applyInsert, insert, h, hdup]⟩
  · have h : ¬ 2 ^ t.depth ≤ t.leaves.length := by omega
    refine ⟨updateRootHistory (addLeaf t l) (calculateCurrentRoot H2 (addLeaf t l)),
      by simp [insert, h, hnew], by simp, ?_, by simp, ?_, ?_⟩
    · simp [List.getD_eq_getElem?_getD, List.getElem?_append_right]
    · have hcongr :
          calculateCurrentRoot H2
              (updateRootHistory (addLeaf t l) (calculateCurrentRoot H2 (addLeaf t l)))
            = calculateCurrentRoot H2 (addLeaf t l) :=
        calculateCurrentRoot_congr H2 rfl rfl rfl
      rw [hcongr, updateRootHistory_valid]
      simp
    · have hne :
          (updateRootHistory (addLeaf t l)
              (calculateCurrentRoot H2 (addLeaf t l))).leaves.length ≠ 0 := by
        simp
      unfold getRoot
      rw [if_neg hne]

/-- A full tree: depth 0 (capacity 1) holding one leaf. -/
def tFullc : MerkleTree := applyInsert H2c (initTree H2c 0 0 5) 4

/-- A depth-1 tree holding the single leaf 4. -/
def tDupc : MerkleTree := applyInsert H2c (initTree H2c 1 0 5) 4

/-- Witness for C6: a full tree rejects, a duplicate rejects, and a fresh
leaf is appended at the old leaf count. -/
theorem C6_witness :
    (insert H2c tFullc 9 = .error .TreeFull ∧ applyInsert H2c tFullc 9 = tFullc)
    ∧ (insert H2c tDupc 4 = .error .DuplicateLeaf ∧ applyInsert H2c tDupc 4 = tDupc)
    ∧ ∃ t', insert H2c t0c 7 = .ok t'
        ∧ t'.leaves = t0c.leaves ++ [7]
        ∧ t'.leaves.getD t0c.leaves.length 0 = 7
        ∧ t'.leaves.length = t0c.leaves.length + 1
        ∧ t'.isValidHistoricalRoot (calculateCurrentRoot H2c t') = true
        ∧ getRoot H2c t' = calculateCurrentRoot H2c t' :=
  ⟨(C6_insert_spec H2c tFullc 9).1 (by decide),
   (C6_insert_spec H2c tDupc 4).2.1 (by decide) (by decide),
   (C6_insert_spec H2c t0c 7).2.2 (by decide) (by decide)⟩

/-! ### C7 -/

/-- The depth-2 concrete scenario tree: commitments 1 then 2 inserted into
an empty depth-2 tree with `zeroValue = 0`. -/
def tC7 : MerkleTree := applyInsert H2c (applyInsert H2c (initTree H2c 2 0 5) 1) 2

/-- C7 counterexample: in the spec's concrete scenario the claimed
membership proof for `C1` (`pathIndices = [0,1]`, siblings
`[C2, H2(0,0)]`) does **not** verify against the tree root — `verifyProof`
returns `some false` — whereas `pathIndices = [0,0]` verifies. -/
theorem C7_counterexample :
    verifyProof H2c 1 [2, H2c 0 0] [0, 1] (getRoot H2c tC7) = some false
    ∧ verifyProof H2c 1 [2, H2c 0 0] [0, 0] (getRoot H2c tC7) = some true
    ∧ getRoot H2c tC7 = H2c (H2c 1 2) (H2c 0 0) := by
  refine ⟨by decide, by decide, by decide⟩

/-- C7 amended: `verifyProof` is the pure bottom-up fold using
`H2(current, sibling)` at path index 0 (left child) and
`H2(sibling, current)` otherwise (right child), returning `some true` iff
the fold equals the root; in the depth-2 scenario the root is
`H2(H2(C1,C2), H2(0,0))` and the membership proof for `C1` has siblings
`[C2, H2(0,0)]` with `pathIndices = [0,0]` (not `[0,1]`). -/
theorem C7_verify_semantics_and_scenario (H2 : Nat → Nat → Nat) (c1 c2 : Nat)
    (h12 : c1 ≠ c2) :
    getRoot H2 (applyInsert H2 (applyInsert H2 (initTree H2 2 0 HISTORY_SIZE) c1) c2)
      = H2 (H2 c1 c2) (H2 0 0)
    ∧ verifyProof H2 c1 [c2, H2 0 0] [0, 0] (H2 (H2 c1 c2) (H2 0 0)) = some true
    ∧ (∀ leaf proof idxs root, proof.length = idxs.length →
        (verifyProof H2 leaf proof idxs root = some true ↔ pathHash H2 leaf proof idxs = root))
    ∧ (∀ cur s ss is, pathHash H2 cur (s :: ss) (0 :: is) = pathHash H2 (H2 cur s) ss is)
    ∧ (∀ cur s ss is i, i ≠ 0 →
        pathHash H2 cur (s :: ss) (i :: is) = pathHash H2 (H2 s cur) ss is) := by
  have h21 : c2 ≠ c1 := Ne.symm h12
  refine ⟨?_, ?_, ?_, ?_, ?_⟩
  · simp [applyInsert, insert, initTree, addLeaf, updateRootHistory, getRoot,
      calculateCurrentRoot, HISTORY_SIZE, h21, hashPairs, List.range_succ]
  · simp [verifyProof, pathHash]
  · intro leaf proof idxs root h
    simp [verifyProof, h, beq_iff_eq]
  · intro cur s ss is
    rfl
  · intro cur s ss is i hi
    simp [pathHash, hi]

/-- Witness for C7 at the concrete scenario values. -/
theorem C7_witness :
    getRoot H2c (applyInsert H2c (applyInsert H2c (initTree H2c 2 0 HISTORY_SIZE) 1) 2)
      = H2c (H2c 1 2) (H2c 0 0)
    ∧ verifyProof H2c 1 [2, H2c 0 0] [0, 0] (H2c (H2c 1 2) (H2c 0 0)) = some true :=
  ⟨(C7_verify_semantics_and_scenario H2c 1 2 (by decide)).1,
   (C7_verify_semantics_and_scenario H2c 1 2 (by decide)).2.1⟩

/-! ### Withdraw helper lemmas -/

/-- Inversion of a successful `withdraw`: it only succeeds when the
claimed root equals the *current* tree root, and it marks the presented
nullifier hash as used and pays out `publicInputs[0]`. -/
lemma withdraw_ok_inv (H2 : Nat → Nat → Nat) (st : PoolState) (pv : Bool)
    (pi : List Nat) (rcpt : Nat) (st' : PoolState) (amt : Nat)
    (h : withdraw H2 st pv pi rcpt = .ok (st', amt)) :
    extractMerkleRoot pi = getRoot H2 st.merkleTree
    ∧ st'.nullifierHashExists (extractNullifierHash pi) = true
    ∧ amt = extractWithdrawAmount pi := by
  unfold withdraw at h
  by_cases c0 : rcpt = 0
  · rw [if_pos c0] at h; cases h
  rw [if_neg c0] at h
  by_cases c1 : pv = false
  · rw [if_pos c1] at h; cases h
  rw [if_neg c1] at h
  by_cases c2 : pi.length < 25
  · rw [if_pos c2] at h; cases h
  rw [if_neg c2] at h
  by_cases c3 : extractWithdrawAmount pi = 0
  · rw [if_pos c3] at h; cases h
  rw [if_neg c3] at h
  by_cases c4 : DENOMINATION < extractWithdrawAmount pi
  · rw [if_pos c4] at h; cases h
  rw [if_neg c4] at h
  by_cases c5 : st.balance < extractWithdrawAmount pi
  · rw [if_pos c5] at h; cases h
  rw [if_neg c5] at h
  by_cases c6 : st.nullifierHashExists (extractNullifierHash pi) = true
  · rw [if_pos c6] at h; cases h
  rw [if_neg c6] at h
  by_cases c7 : extractMerkleRoot pi ≠ getRoot H2 st.merkleTree
  · rw [if_pos c7] at h; cases h
  rw [if_neg c7] at h
  by_cases c8 : extractNewCommitment pi ≠ 0
  · rw [if_pos c8] at h
    by_cases c9 : hasLeaf (markNullifier st (extractNullifierHash pi)).merkleTree
        (extractNewCommitment pi) = true
    · rw [if_pos c9] at h; cases h
    rw [if_neg c9] at h
    cases hI : insert H2 (markNullifier st (extractNullifierHash pi)).merkleTree
        (extractNewCommitment pi) with
    | error e => rw [hI] at h; cases h
    | ok t' =>
      rw [hI] at h
      cases h
      exact ⟨not_not.mp c7, by simp [markNullifier], rfl⟩
  · rw [if_neg c8] at h
    cases h
    exact ⟨not_not.mp c7, by simp [markNullifier], rfl⟩

/-- The `withdraw` check chain up to the nullifier test: when the
recipient, proof, amount and balance checks pass and the presented
nullifier hash is already marked, the call reverts with
`NullifierReused` — the root is never consulted. -/
lemma withdraw_nullifier_reused (H2 : Nat → Nat → Nat) (st : PoolState) (pv : Bool)
    (pi : List Nat) (rcpt : Nat)
    (h0 : rcpt ≠ 0) (h1 : pv = true) (h2 : 25 ≤ pi.length)
    (h3 : extractWithdrawAmount pi ≠ 0) (h4 : extractWithdrawAmount pi ≤ DENOMINATION)
    (h5 : extractWithdrawAmount pi ≤ st.balance)
    (h6 : st.nullifierHashExists (extractNullifierHash pi) = true) :
    withdraw H2 st pv pi rcpt = .error .NullifierReused := by
  subst h1
  unfold withdraw
  rw [if_neg h0, if_neg (by simp : ¬ (true = false)),
    if_neg (by omega : ¬ pi.length < 25), if_neg h3,
    if_neg (by omega : ¬ DENOMINATION < extractWithdrawAmount pi),
    if_neg (by omega : ¬ st.balance < extractWithdrawAmount pi), if_pos h6]

/-- The `withdraw` check chain through the root test: with everything up
to the nullifier passing and a fresh nullifier, a claimed root different
from the current tree root reverts with `InvalidMerkleRoot`. -/
lemma withdraw_invalid_root (H2 : Nat → Nat → Nat) (st : PoolState) (pv : Bool)
    (pi : List Nat) (rcpt : Nat)
    (h0 : rcpt ≠ 0) (h1 : pv = true) (h2 : 25 ≤ pi.length)
    (h3 : extractWithdrawAmount pi ≠ 0) (h4 : extractWithdrawAmount pi ≤ DENOMINATION)
    (h5 : extractWithdrawAmount pi ≤ st.balance)
    (h6 : st.nullifierHashExists (extractNullifierHash pi) = false)
    (h7 : extractMerkleRoot pi ≠ getRoot H2 st.merkleTree) :
    withdraw H2 st pv pi rcpt = .error .InvalidMerkleRoot := by
  subst h1
  unfold withdraw
  rw [if_neg h0, if_neg (by simp : ¬ (true = false)),
    if_neg (by omega : ¬ pi.length < 25), if_neg h3,
    if_neg (by omega : ¬ DENOMINATION < extractWithdrawAmount pi),
    if_neg (by omega : ¬ st.balance < extractWithdrawAmount pi),
    if_neg (by simp [h6] : ¬ st.nullifierHashExists (extractNullifierHash pi) = true),
    if_pos h7]

/-! ### C1 -/

/-- C1 counterexample: in the pool `st1c` the empty-tree root (value 1)
is still inside the root-history window, yet a withdrawal claiming it —
with a verifying proof, passing amount checks and a fresh nullifier — is
rejected, because `withdraw` compares the claimed root only against the
current tree root. -/
theorem C1_counterexample :
    st1c.merkleTree.isValidHistoricalRoot (extractMerkleRoot piC1) = true
    ∧ extractMerkleRoot piC1 ≠ getRoot H2c st1c.merkleTree
    ∧ resultError (withdraw H2c st1c true piC1 9) = some .InvalidMerkleRoot := by
  decide

/-- C1 amended: `withdraw` succeeds only when the claimed `merkleRoot`
equals the *current* tree root — the root-history window is never
consulted — and when all checks before the root test pass but the claimed
root differs from the current root, the request is rejected with the
root-mismatch error (`InvalidMerkleRoot`, the code's
`"Invalid merkle root"` revert), even if the root is in the window. -/
theorem C1_withdraw_requires_current_root (H2 : Nat → Nat → Nat) (st : PoolState)
    (pv : Bool) (pi : List Nat) (rcpt : Nat) :
    (∀ st' amt, withdraw H2 st pv pi rcpt = .ok (st', amt) →
      extractMerkleRoot pi = getRoot H2 st.merkleTree)
    ∧ (rcpt ≠ 0 → pv = true → 25 ≤ pi.length → extractWithdrawAmount pi ≠ 0 →
       extractWithdrawAmount pi ≤ DENOMINATION → extractWithdrawAmount pi ≤ st.balance →
       st.nullifierHashExists (extractNullifierHash pi) = false →
       extractMerkleRoot pi ≠ getRoot H2 st.merkleTree →
       withdraw H2 st pv pi rcpt = .error .InvalidMerkleRoot) :=
  ⟨fun st' amt h => (withdraw_ok_inv H2 st pv pi rcpt st' amt h).1,
   fun h0 h1 h2 h3 h4 h5 h6 h7 =>
     withdraw_invalid_root H2 st pv pi rcpt h0 h1 h2 h3 h4 h5 h6 h7⟩

/-- Witness for C1 at the concrete stale-root request. -/
theorem C1_witness :
    withdraw H2c st1c true piC1 9 = .error .InvalidMerkleRoot :=
  (C1_withdraw_requires_current_root H2c st1c true piC1 9).2 (by decide) rfl
    (by decide) (by decide) (by decide) (by decide) (by decide) (by decide)

/-! ### C2 -/

/-- A fresh pool over the depth-1 tree holding exactly 1 wei. -/
def stC2 : PoolState :=
  { merkleTree := t0c
    nullifierHashExists := fun _ => false
    balance := 1
    totalDeposits := 0
    totalWithdrawals := 0 }

/-- Same pool with 2 wei, so a second 1-wei request still clears the
balance check. -/
def stC2w : PoolState :=
  { merkleTree := t0c
    nullifierHashExists := fun _ => false
    balance := 2
    totalDeposits := 0
    totalWithdrawals := 0 }

/-- C2 counterexample: the first withdrawal (1 wei, draining the pool)
succeeds and marks the nullifier, but the identical second call is
rejected with `InsufficientPoolBalance`, not `NullifierReused`, because
the balance check precedes the nullifier check. -/
theorem C2_counterexample :
    resultError (withdraw H2c stC2 true piC1 9) = none
    ∧ (applyWithdraw H2c stC2 true piC1 9).nullifierHashExists
        (extractNullifierHash piC1) = true
    ∧ resultError (withdraw H2c (applyWithdraw H2c stC2 true piC1 9) true piC1 9)
        = some .InsufficientPoolBalance := by
  decide

/-- C2 amended: after a successful withdrawal, any immediately following
withdrawal presenting the same `nullifierHash` (same or different proof)
is rejected with `NullifierReused` *provided* the checks that precede the
nullifier test — recipient, proof validity, amount bounds and in
particular the remaining pool balance — still pass; the rejection leaves
the pool state unchanged. -/
theorem C2_no_double_spend (H2 : Nat → Nat → Nat) (st : PoolState) (pv : Bool)
    (pi : List Nat) (rcpt : Nat) (st' : PoolState) (amt : Nat)
    (pv2 : Bool) (pi2 : List Nat) (rcpt2 : Nat)
    (hfirst : withdraw H2 st pv pi rcpt = .ok (st', amt))
    (hsame : extractNullifierHash pi2 = extractNullifierHash pi)
    (h0 : rcpt2 ≠ 0) (h1 : pv2 = true) (h2 : 25 ≤ pi2.length)
    (h3 : extractWithdrawAmount pi2 ≠ 0) (h4 : extractWithdrawAmount pi2 ≤ DENOMINATION)
    (h5 : extractWithdrawAmount pi2 ≤ st'.balance) :
    withdraw H2 st' pv2 pi2 rcpt2 = .error .NullifierReused
    ∧ applyWithdraw H2 st' pv2 pi2 rcpt2 = st' := by
  have hmarked : st'.nullifierHashExists (extractNullifierHash pi2) = true := by
    rw [hsame]
    exact (withdraw_ok_inv H2 st pv pi rcpt st' amt hfirst).2.1
  have hw := withdraw_nullifier_reused H2 st' pv2 pi2 rcpt2 h0 h1 h2 h3 h4 h5 hmarked
  exact ⟨hw, by unfold applyWithdraw; rw [hw]⟩

/-- Witness for C2: in the 2-wei pool the second identical request is
rejected with `NullifierReused`. -/
theorem C2_witness :
    withdraw H2c (applyWithdraw H2c stC2w true piC1 9) true piC1 9
      = .error .NullifierReused :=
  (C2_no_double_spend H2c stC2w true piC1 9 (applyWithdraw H2c stC2w true piC1 9) 1
    true piC1 9 rfl rfl (by decide) rfl (by decide) (by decide) (by decide)
    (by decide)).1

/-! ### C3 -/

/-- C3: when every check through the root test passes but the (nonzero)
`newCommitment` is already a tree leaf, `withdraw` reverts with
`DuplicateNewCommitment` and the whole transition is an atomic no-op — in
particular the nullifier reservation made earlier in the same call is
rolled back, so the nullifier hash is not registered as spent. -/
theorem C3_duplicate_new_commitment_atomic (H2 : Nat → Nat → Nat) (st : PoolState)
    (pv : Bool) (pi : List Nat) (rcpt : Nat)
    (h0 : rcpt ≠ 0) (h1 : pv = true) (h2 : 25 ≤ pi.length)
    (h3 : extractWithdrawAmount pi ≠ 0) (h4 : extractWithdrawAmount pi ≤ DENOMINATION)
    (h5 : extractWithdrawAmount pi ≤ st.balance)
    (h6 : st.nullifierHashExists (extractNullifierHash pi) = false)
    (h7 : extractMerkleRoot pi = getRoot H2 st.merkleTree)
    (h8 : extractNewCommitment pi ≠ 0)
    (h9 : hasLeaf st.merkleTree (extractNewCommitment pi) = true) :
    withdraw H2 st pv pi rcpt = .error .DuplicateNewCommitment
    ∧ applyWithdraw H2 st pv pi rcpt = st
    ∧ (applyWithdraw H2 st pv pi rcpt).nullifierHashExists (extractNullifierHash pi)
        = st.nullifierHashExists (extractNullifierHash pi) := by
  have hw : withdraw H2 st pv pi rcpt = .error .DuplicateNewCommitment := by
    subst h1
    unfold withdraw
    rw [if_neg h0, if_neg (by simp : ¬ (true = false)),
      if_neg (by omega : ¬ pi.length < 25), if_neg h3,
      if_neg (by omega : ¬ DENOMINATION < extractWithdrawAmount pi),
      if_neg (by omega : ¬ st.balance < extractWithdrawAmount pi),
      if_neg (by simp [h6] : ¬ st.nullifierHashExists (extractNullifierHash pi) = true),
      if_neg (by simp [h7] : ¬ extractMerkleRoot pi ≠ getRoot H2 st.merkleTree),
      if_pos h8,
      if_pos (show hasLeaf (markNullifier st (extractNullifierHash pi)).merkleTree
        (extractNewCommitment pi) = true from h9)]
  exact ⟨hw, by unfold applyWithdraw; rw [hw], by unfold applyWithdraw; rw [hw]⟩

/-- Public inputs for a partial withdrawal against `st1c`: amount 1,
current root 29, nullifier hash 3, and `newCommitment = 7`, which is
already a leaf. -/
def piC3 : List Nat :=
  [1] ++ [0, 0, 0, 0, 0, 0, 0, 29] ++ [0, 0, 0, 0, 0, 0, 0, 3] ++ [0, 0, 0, 0, 0, 0, 0, 7]

/-- Witness for C3 at the concrete duplicate-remainder request. -/
theorem C3_witness :
    withdraw H2c st1c true piC3 9 = .error .DuplicateNewCommitment
    ∧ applyWithdraw H2c st1c true piC3 9 = st1c :=
  ⟨(C3_duplicate_new_commitment_atomic H2c st1c true piC3 9 (by decide) rfl (by decide)
      (by decide) (by decide) (by decide) (by decide) (by decide) (by decide)
      (by decide)).1,
   (C3_duplicate_new_commitment_atomic H2c st1c true piC3 9 (by decide) rfl (by decide)
      (by decide) (by decide) (by decide) (by decide) (by decide) (by decide)
      (by decide)).2.1⟩

/-! ### C4 -/

/-- A pool whose nullifier registry already contains hash 3. -/
def stC4 : PoolState :=
  { merkleTree := t0c
    nullifierHashExists := fun h => if h = 3 then true else false
    balance := 5
    totalDeposits := 0
    totalWithdrawals := 0 }

/-- Public inputs claiming root 2 (not the current root 1) and the spent
nullifier hash 3. -/
def piC4 : List Nat :=
  [1] ++ [0, 0, 0, 0, 0, 0, 0, 2] ++ [0, 0, 0, 0, 0, 0, 0, 3] ++ [0, 0, 0, 0, 0, 0, 0, 0]

/-- C4 counterexample: on a request whose root is invalid *and* whose
nullifier is already spent, `withdraw` reports `NullifierReused` — the
nullifier test runs before the root test, not strictly after it. -/
theorem C4_counterexample :
    stC4.nullifierHashExists (extractNullifierHash piC4) = true
    ∧ extractMerkleRoot piC4 ≠ getRoot H2c stC4.merkleTree
    ∧ resultError (withdraw H2c stC4 true piC4 9) = some .NullifierReused := by
  decide

/-- C4 amended: the code performs the nullifier check *before* the root
check — whenever the presented nullifier hash is already spent and the
earlier (recipient/proof/amount/balance) checks pass, the result is
`NullifierReused` regardless of the claimed root; nevertheless a
withdrawal rejected for any reason, in particular a root mismatch, is an
atomic revert that leaves the pool state (including the nullifier
registry) unchanged. -/
theorem C4_nullifier_checked_before_root (H2 : Nat → Nat → Nat) (st : PoolState)
    (pv : Bool) (pi : List Nat) (rcpt : Nat) :
    (rcpt ≠ 0 → pv = true → 25 ≤ pi.length → extractWithdrawAmount pi ≠ 0 →
      extractWithdrawAmount pi ≤ DENOMINATION → extractWithdrawAmount pi ≤ st.balance →
      st.nullifierHashExists (extractNullifierHash pi) = true →
      withdraw H2 st pv pi rcpt = .error .NullifierReused)
    ∧ ∀ e, withdraw H2 st pv pi rcpt = .error e → applyWithdraw H2 st pv pi rcpt = st :=
  ⟨fun h0 h1 h2 h3 h4 h5 h6 =>
     withdraw_nullifier_reused H2 st pv pi rcpt h0 h1 h2 h3 h4 h5 h6,
   fun _ h => by unfold applyWithdraw; rw [h]⟩

/-- Witness for C4 at the concrete spent-nullifier, bad-root request. -/
theorem C4_witness :
    withdraw H2c stC4 true piC4 9 = .error .NullifierReused :=
  (C4_nullifier_checked_before_root H2c stC4 true piC4 9).1 (by decide) rfl
    (by decide) (by decide) (by decide) (by decide) (by decide)

/-! ### C5: the root-history window -/

/-- The tree after `n` successful inserts of `leaf 1, …, leaf n` into
`t0` (each step is the write-and-record body of `insert`; the main
theorem proves `insert` itself steps through exactly this chain). -/
def chainTree (H2 : Nat → Nat → Nat) (t0 : MerkleTree) (leaf : Nat → Nat) : Nat → MerkleTree
  | 0 => t0
  | n + 1 =>
    updateRootHistory (addLeaf (chainTree H2 t0 leaf n) (leaf (n + 1)))
      (calculateCurrentRoot H2 (addLeaf (chainTree H2 t0 leaf n) (leaf (n + 1))))

/-- The tree root after `n` inserts. -/
def rootAt (H2 : Nat → Nat → Nat) (t0 : MerkleTree) (leaf : Nat → Nat) (n : Nat) : Nat :=
  getRoot H2 (chainTree H2 t0 leaf n)

lemma chainTree_succ (H2 : Nat → Nat → Nat) (t0 : MerkleTree) (leaf : Nat → Nat) (n : Nat) :
    chainTree H2 t0 leaf (n + 1)
      = updateRootHistory (addLeaf (chainTree H2 t0 leaf n) (leaf (n + 1)))
          (calculateCurrentRoot H2 (addLeaf (chainTree H2 t0 leaf n) (leaf (n + 1)))) := rfl

lemma chainTree_depth (H2 : Nat → Nat → Nat) (t0 : MerkleTree) (leaf : Nat → Nat) (n : Nat) :
    (chainTree H2 t0 leaf n).depth = t0.depth := by
  induction n with
  | zero => rfl
  | succ n ih => rw [chainTree_succ]; simp [ih]

lemma chainTree_zeroValue (H2 : Nat → Nat → Nat) (t0 : MerkleTree) (leaf : Nat → Nat)
    (n : Nat) : (chainTree H2 t0 leaf n).zeroValue = t0.zeroValue := by
  induction n with
  | zero => rfl
  | succ n ih => rw [chainTree_succ]; simp [ih]

lemma chainTree_historySize (H2 : Nat → Nat → Nat) (t0 : MerkleTree) (leaf : Nat → Nat)
    (n : Nat) : (chainTree H2 t0 leaf n).historySize = t0.historySize := by
  induction n with
  | zero => rfl
  | succ n ih => rw [chainTree_succ]; simp [ih]

lemma chainTree_length (H2 : Nat → Nat → Nat) (t0 : MerkleTree) (leaf : Nat → Nat)
    (n : Nat) : (chainTree H2 t0 leaf n).leaves.length = t0.leaves.length + n := by
  induction n with
  | zero => rfl
  | succ n ih => rw [chainTree_succ]; simp [ih]; omega

lemma chainTree_leafExists (H2 : Nat → Nat → Nat) (d z K : Nat) (leaf : Nat → Nat)
    (n v : Nat) :
    (chainTree H2 (initTree H2 d z K) leaf n).leafExists v = true
      ↔ ∃ i, 1 ≤ i ∧ i ≤ n ∧ v = leaf i := by
  induction n with
  | zero =>
    constructor
    · intro h
      exact absurd h (by simp [chainTree, initTree])
    · rintro ⟨i, h1, h2, -⟩
      omega
  | succ n ih =>
    rw [chainTree_succ]
    simp only [updateRootHistory_leafExists]
    by_cases hv : v = leaf (n + 1)
    · simp only [addLeaf, hv, if_pos rfl]
      exact ⟨fun _ => ⟨n + 1, by omega, by omega, rfl⟩, fun _ => rfl⟩
    · simp only [addLeaf, if_neg hv]
      rw [ih]
      constructor
      · rintro ⟨i, h1, h2, h3⟩
        exact ⟨i, h1, by omega, h3⟩
      · rintro ⟨i, h1, h2, h3⟩
        rcases Nat.lt_or_ge i (n + 1) with hi | hi
        · exact ⟨i, h1, by omega, h3⟩
        · have : i = n + 1 := by omega
          subst this
          exact absurd h3 hv

lemma rootAt_succ (H2 : Nat → Nat → Nat) (t0 : MerkleTree) (leaf : Nat → Nat) (n : Nat) :
    rootAt H2 t0 leaf (n + 1)
      = calculateCurrentRoot H2 (addLeaf (chainTree H2 t0 leaf n) (leaf (n + 1))) := by
  unfold rootAt getRoot
  rw [chainTree_succ]
  have hlen : (updateRootHistory (addLeaf (chainTree H2 t0 leaf n) (leaf (n + 1)))
      (calculateCurrentRoot H2 (addLeaf (chainTree H2 t0 leaf n) (leaf (n + 1))))).leaves.length
      ≠ 0 := by simp
  rw [if_neg hlen]
  exact calculateCurrentRoot_congr H2 rfl rfl rfl

lemma rootAt_zero (H2 : Nat → Nat → Nat) (d z K : Nat) (leaf : Nat → Nat) :
    rootAt H2 (initTree H2 d z K) leaf 0 = calculateEmptyTreeRoot H2 z d := by
  simp [rootAt, chainTree, getRoot, initTree]

@[simp] lemma initTree_depth (H2 : Nat → Nat → Nat) (d z K : Nat) :
    (initTree H2 d z K).depth = d := rfl

@[simp] lemma initTree_zeroValue (H2 : Nat → Nat → Nat) (d z K : Nat) :
    (initTree H2 d z K).zeroValue = z := rfl

@[simp] lemma initTree_historySize (H2 : Nat → Nat → Nat) (d z K : Nat) :
    (initTree H2 d z K).historySize = K := rfl

@[simp] lemma initTree_leaves (H2 : Nat → Nat → Nat) (d z K : Nat) :
    (initTree H2 d z K).leaves = [] := rfl

/-- Ring-buffer invariant while the history has spare capacity: after
`n < K` inserts the cursor sits at `n`, slot `0` holds the initial root,
slots `1..n` hold the successive post-insert roots, the remaining slots
still hold `0`, and exactly the roots produced so far are valid. -/
lemma chainTree_hist_inv (H2 : Nat → Nat → Nat) (d z K : Nat) (leaf : Nat → Nat)
    (n : Nat) (hn : n < K) :
    (chainTree H2 (initTree H2 d z K) leaf n).currentHistoryIndex = n
    ∧ (∀ s, (chainTree H2 (initTree H2 d z K) leaf n).rootHistory s
        = if s = 0 then rootAt H2 (initTree H2 d z K) leaf 0
          else if s ≤ n then rootAt H2 (initTree H2 d z K) leaf s else 0)
    ∧ ∀ r, ((chainTree H2 (initTree H2 d z K) leaf n).isValidHistoricalRoot r = true
        ↔ ∃ i, i ≤ n ∧ r = rootAt H2 (initTree H2 d z K) leaf i) := by
  induction n with
  | zero =>
    refine ⟨rfl, fun s => ?_, fun r => ?_⟩
    · show (if s = 0 then calculateEmptyTreeRoot H2 z d else 0) = _
      by_cases hs : s = 0
      · simp [hs, rootAt_zero]
      · rw [if_neg hs, if_neg hs, if_neg (by omega : ¬ s ≤ 0)]
    · show (if r = calculateEmptyTreeRoot H2 z d then true else false) = true ↔ _
      constructor
      · intro h
        by_cases hr : r = calculateEmptyTreeRoot H2 z d
        · exact ⟨0, Nat.le_refl 0, by rw [rootAt_zero]; exact hr⟩
        · rw [if_neg hr] at h
          cases h
      · rintro ⟨i, hi, hr⟩
        have hi0 : i = 0 := by omega
        subst hi0
        rw [rootAt_zero] at hr
        rw [if_pos hr]
  | succ n ih =>
    have hn1 : n + 1 < K := hn
    obtain ⟨hidx, hhist, hvalid⟩ := ih (by omega)
    have hsize : (addLeaf (chainTree H2 (initTree H2 d z K) leaf n)
        (leaf (n + 1))).historySize = K := by
      rw [addLeaf_historySize, chainTree_historySize]
      rfl
    have hidx1 : (addLeaf (chainTree H2 (initTree H2 d z K) leaf n)
        (leaf (n + 1))).currentHistoryIndex = n := by
      rw [addLeaf_currentHistoryIndex, hidx]
    have hmod : (n + 1) % K = n + 1 := Nat.mod_eq_of_lt hn1
    refine ⟨?_, fun s => ?_, fun r => ?_⟩
    · rw [chainTree_succ, updateRootHistory_currentHistoryIndex, hidx1, hsize, hmod]
    · rw [chainTree_succ, updateRootHistory_rootHistory, hidx1, hsize, hmod,
        addLeaf_rootHistory, ← rootAt_succ]
      by_cases hs : s = n + 1
      · subst hs
        rw [if_pos rfl, if_neg (by omega : ¬ n + 1 = 0), if_pos (Nat.le_refl _)]
      · rw [if_neg hs, hhist s]
        by_cases hs0 : s = 0
        · simp [hs0]
        · rw [if_neg hs0, if_neg hs0]
          by_cases hsn : s ≤ n
          · rw [if_pos hsn, if_pos (by omega : s ≤ n + 1)]
          · rw [if_neg hsn, if_neg (by omega : ¬ s ≤ n + 1)]
    · rw [chainTree_succ, updateRootHistory_valid, addLeaf_rootHistory, hidx1, hsize,
        hmod, addLeaf_isValidHistoricalRoot, ← rootAt_succ]
      have hold : (chainTree H2 (initTree H2 d z K) leaf n).rootHistory (n + 1) = 0 := by
        rw [hhist, if_neg (by omega : ¬ n + 1 = 0), if_neg (by omega : ¬ n + 1 ≤ n)]
      rw [hold, if_neg (by simp : ¬ (0 : Nat) ≠ 0)]
      by_cases hr : r = rootAt H2 (initTree H2 d z K) leaf (n + 1)
      · rw [if_pos hr]
        exact ⟨fun _ => ⟨n + 1, Nat.le_refl _, hr⟩, fun _ => rfl⟩
      · rw [if_neg hr, hvalid r]
        constructor
        · rintro ⟨i, hi, hri⟩
          exact ⟨i, by omega, hri⟩
        · rintro ⟨i, hi, hri⟩
          rcases Nat.lt_or_ge i (n + 1) with h' | h'
          · exact ⟨i, by omega, hri⟩
          · have : i = n + 1 := by omega
            subst this
            exact absurd hri hr

/-- C5: starting from an empty tree with root-history capacity `K ≥ 1`
and tree capacity at least `K + 1`, inserting `K + 1` distinct
commitments (whose successive roots are pairwise distinct and nonzero —
no hash collisions) steps `insert` through the chain `chainTree`, after
which the root produced by the very first insertion is no longer a valid
historical root while each of the `K` most recently produced roots still
is. -/
theorem C5_history_window (H2 : Nat → Nat → Nat) (d z K : Nat) (leaf : Nat → Nat)
    (hK : 1 ≤ K) (hcap : K + 1 ≤ 2 ^ d)
    (hleaf : ∀ i, i ≤ K + 1 → ∀ j, j ≤ K + 1 → 1 ≤ i → 1 ≤ j → i ≠ j →
      leaf i ≠ leaf j)
    (hnodup : ∀ i, i ≤ K + 1 → ∀ j, j ≤ K + 1 → i ≠ j →
      rootAt H2 (initTree H2 d z K) leaf i ≠ rootAt H2 (initTree H2 d z K) leaf j)
    (hnz : ∀ i, i ≤ K + 1 → rootAt H2 (initTree H2 d z K) leaf i ≠ 0) :
    (∀ n, n < K + 1 →
      insert H2 (chainTree H2 (initTree H2 d z K) leaf n) (leaf (n + 1))
        = .ok (chainTree H2 (initTree H2 d z K) leaf (n + 1)))
    ∧ (chainTree H2 (initTree H2 d z K) leaf (K + 1)).isValidHistoricalRoot
        (rootAt H2 (initTree H2 d z K) leaf 1) = false
    ∧ ∀ j, 2 ≤ j → j ≤ K + 1 →
        (chainTree H2 (initTree H2 d z K) leaf (K + 1)).isValidHistoricalRoot
          (rootAt H2 (initTree H2 d z K) leaf j) = true := by
  obtain ⟨m, rfl⟩ : ∃ m, K = m + 1 := ⟨K - 1, by omega⟩
  obtain ⟨hidx, hhist, hvalid⟩ := chainTree_hist_inv H2 d z (m + 1) leaf m (by omega)
  -- state after insert number K = m + 1 (cursor wraps to slot 0, evicting
  -- the initial root)
  have hidxK : (chainTree H2 (initTree H2 d z (m + 1)) leaf (m + 1)).currentHistoryIndex
      = 0 := by
    rw [chainTree_succ, updateRootHistory_currentHistoryIndex,
      addLeaf_currentHistoryIndex, addLeaf_historySize, hidx, chainTree_historySize,
      initTree_historySize, Nat.mod_self]
  have hhistK : ∀ s, (chainTree H2 (initTree H2 d z (m + 1)) leaf (m + 1)).rootHistory s
      = if s = 0 then rootAt H2 (initTree H2 d z (m + 1)) leaf (m + 1)
        else (chainTree H2 (initTree H2 d z (m + 1)) leaf m).rootHistory s := by
    intro s
    rw [chainTree_succ, updateRootHistory_rootHistory, addLeaf_currentHistoryIndex,
      addLeaf_historySize, hidx, chainTree_historySize, initTree_historySize,
      Nat.mod_self, addLeaf_rootHistory, ← rootAt_succ]
  have hvalidK : ∀ q,
      (chainTree H2 (initTree H2 d z (m + 1)) leaf (m + 1)).isValidHistoricalRoot q
      = if q = rootAt H2 (initTree H2 d z (m + 1)) leaf (m + 1) then true
        else if q = rootAt H2 (initTree H2 d z (m + 1)) leaf 0 then false
        else (chainTree H2 (initTree H2 d z (m + 1)) leaf m).isValidHistoricalRoot q := by
    intro q
    rw [chainTree_succ, updateRootHistory_valid, addLeaf_rootHistory,
      addLeaf_currentHistoryIndex, addLeaf_historySize, hidx, chainTree_historySize,
      initTree_historySize, Nat.mod_self, addLeaf_isValidHistoricalRoot, ← rootAt_succ,
      hhist 0, if_pos rfl, if_pos (hnz 0 (by omega))]
  -- the slot overwritten by insert number K + 1 = m + 2 holds the root of
  -- the first insertion
  have holdK1 : (chainTree H2 (initTree H2 d z (m + 1)) leaf (m + 1)).rootHistory
      (1 % (m + 1)) = rootAt H2 (initTree H2 d z (m + 1)) leaf 1 := by
    rcases Nat.eq_zero_or_pos m with hm | hm
    · subst hm
      rw [show 1 % 1 = 0 from rfl, hhistK 0, if_pos rfl]
    · rw [Nat.mod_eq_of_lt (by omega : 1 < m + 1), hhistK 1,
        if_neg (by omega : ¬ (1 : Nat) = 0), hhist 1,
        if_neg (by omega : ¬ (1 : Nat) = 0), if_pos (by omega : 1 ≤ m)]
  have hvalidK1 : ∀ q,
      (chainTree H2 (initTree H2 d z (m + 1)) leaf (m + 2)).isValidHistoricalRoot q
      = if q = rootAt H2 (initTree H2 d z (m + 1)) leaf (m + 2) then true
        else if q = rootAt H2 (initTree H2 d z (m + 1)) leaf 1 then false
        else (chainTree H2 (initTree H2 d z (m + 1)) leaf
          (m + 1)).isValidHistoricalRoot q := by
    intro q
    rw [chainTree_succ, updateRootHistory_valid, addLeaf_rootHistory,
      addLeaf_currentHistoryIndex, addLeaf_historySize, hidxK, chainTree_historySize,
      initTree_historySize, addLeaf_isValidHistoricalRoot, ← rootAt_succ, holdK1,
      if_pos (hnz 1 (by omega))]
  refine ⟨fun n hn => ?_, ?_, fun j hj2 hjK => ?_⟩
  · have hlen : (chainTree H2 (initTree H2 d z (m + 1)) leaf n).leaves.length = n := by
      rw [chainTree_length, initTree_leaves]
      simp
    have hdep : (chainTree H2 (initTree H2 d z (m + 1)) leaf n).depth = d := by
      rw [chainTree_depth, initTree_depth]
    have hnotfull :
        ¬ 2 ^ (chainTree H2 (initTree H2 d z (m + 1)) leaf n).depth
          ≤ (chainTree H2 (initTree H2 d z (m + 1)) leaf n).leaves.length := by
      rw [hlen, hdep]
      omega
    have hnotdup :
        ¬ (chainTree H2 (initTree H2 d z (m + 1)) leaf n).leafExists (leaf (n + 1))
          = true := by
      intro h
      obtain ⟨i, h1, h2, h3⟩ :=
        (chainTree_leafExists H2 d z (m + 1) leaf n (leaf (n + 1))).mp h
      exact hleaf (n + 1) (by omega) i (by omega) (by omega) h1 (by omega) h3
    unfold insert
    rw [if_neg hnotfull, if_neg hnotdup, chainTree_succ]
  · rw [hvalidK1,
      if_neg (hnodup 1 (by omega) (m + 2) (by omega) (by omega)), if_pos rfl]
  · rw [hvalidK1]
    by_cases hjtop : j = m + 2
    · rw [if_pos (by rw [hjtop])]
    · rw [if_neg (hnodup j (by omega) (m + 2) (by omega) (by omega)),
        if_neg (hnodup j (by omega) 1 (by omega) (by omega)), hvalidK]
      by_cases hjK' : j = m + 1
      · rw [if_pos (by rw [hjK'])]
      · rw [if_neg (hnodup j (by omega) (m + 1) (by omega) (by omega)),
          if_neg (hnodup j (by omega) 0 (by omega) (by omega))]
        exact (hvalid _).mpr ⟨j, by omega, rfl⟩

/-- Witness for C5: capacity `K = 2`, depth 2, commitments `1, 2, 3`; after
the three inserts the first post-insert root is invalid while the third
(and second) still are. -/
theorem C5_witness :
    (chainTree H2c (initTree H2c 2 0 2) (fun i => i) 3).isValidHistoricalRoot
        (rootAt H2c (initTree H2c 2 0 2) (fun i => i) 1) = false
    ∧ (chainTree H2c (initTree H2c 2 0 2) (fun i => i) 3).isValidHistoricalRoot
        (rootAt H2c (initTree H2c 2 0 2) (fun i => i) 3) = true :=
  ⟨(C5_history_window H2c 2 0 2 (fun i => i) (by decide) (by decide)
      (fun _ _ _ _ _ _ hij => hij)
      (by intro i hi j hj hij; interval_cases i <;> interval_cases j <;>
        revert hij <;> decide)
      (by intro i hi; interval_cases i <;> decide)).2.1,
   (C5_history_window H2c 2 0 2 (fun i => i) (by decide) (by decide)
      (fun _ _ _ _ _ _ hij => hij)
      (by intro i hi j hj hij; interval_cases i <;> interval_cases j <;>
        revert hij <;> decide)
      (by intro i hi; interval_cases i <;> decide)).2.2 3 (by decide) (by decide)⟩

end PrivacyPool
